import Mathlib

/-!
# Verification of the Caesar-cipher cracking service

Shallow embedding of the Python sources of the repository
(`crypto/caesar.py`, `crypto/bruteforce.py`, `crypto/scoring.py`, `app.py`).

Modelling conventions:
* Python strings are sequences of Unicode code points; we model them as
  `List ℕ` (one `ℕ` per code point).  `ord`/`chr` are then the identity.
* Python floats are modelled by `ℚ`.  The transcendental functions used by
  the scoring code (`math.exp`, `math.log2`) are abstracted as parameters
  (a `TransFns` record): no claim under verification depends on their
  values, only on the surrounding control flow and clamping.
* Character-class predicates (`str.isalpha`, `str.lower`, `\w`, `\s`)
  are modelled exactly on the ASCII and Latin-1 ranges, which covers every
  character exercised by the claims; code points above U+00FF are treated
  as outside the modelled universe.
-/

namespace Spec2Proof

/-- Convenience: the code points of a Lean string literal, used to write
concrete Python strings in theorems. -/
def codes (s : String) : List ℕ := s.toList.map Char.toNat

/-! ## crypto/caesar.py -/

/-- `_shift_char` from `crypto/caesar.py`: circular shift on `A`-`Z` and
`a`-`z`, all other code points unchanged.  `k` is the already-reduced
shift (the caller reduces mod 26). -/
def shiftChar (c : ℕ) (k : ℤ) : ℕ :=
  if 65 ≤ c ∧ c ≤ 90 then
    (((c : ℤ) - 65 + k) % 26 + 65).toNat
  else if 97 ≤ c ∧ c ≤ 122 then
    (((c : ℤ) - 97 + k) % 26 + 97).toNat
  else c

/-- `encrypt` from `crypto/caesar.py`: reduces the key mod 26 (Python `%`
on a positive modulus is Euclidean, like `Int.emod`) and shifts every
character. -/
def encrypt (plaintext : List ℕ) (k : ℤ) : List ℕ :=
  plaintext.map (fun c => shiftChar c (k % 26))

/-- `decrypt` from `crypto/caesar.py`: `encrypt` with the negated key. -/
def decrypt (ciphertext : List ℕ) (k : ℤ) : List ℕ :=
  encrypt ciphertext (-k)

/-! ## crypto/bruteforce.py -/

/-- `brute_force_caesar` from `crypto/bruteforce.py`: all 26 shift
decryptions, keys 0..25 in loop order. -/
def bruteForceCaesar (ciphertext : List ℕ) : List (ℕ × List ℕ) :=
  (List.range 26).map (fun k => (k, decrypt ciphertext (k : ℤ)))

/-! ### Round-trip lemmas for the shift -/

theorem shiftChar_shiftChar (c : ℕ) (k : ℤ) :
    shiftChar (shiftChar c (k % 26)) (-k % 26) = c := by
  unfold shiftChar
  split_ifs <;> omega

theorem shiftChar_zero (c : ℕ) : shiftChar c ((0 : ℤ) % 26) = c := by
  unfold shiftChar
  split_ifs <;> omega

theorem decrypt_encrypt (x : List ℕ) (k : ℤ) : decrypt (encrypt x k) k = x := by
  unfold decrypt encrypt
  induction x with
  | nil => rfl
  | cons c cs ih =>
    simp only [List.map_cons, List.map_map, List.cons.injEq] at *
    exact ⟨shiftChar_shiftChar c k, ih⟩

theorem encrypt_zero (x : List ℕ) : encrypt x 0 = x := by
  unfold encrypt
  induction x with
  | nil => rfl
  | cons c cs ih =>
    simp only [List.map_cons, List.cons.injEq] at *
    exact ⟨shiftChar_zero c, ih⟩

/-- C1: for every text `x` and key `k` in `[0,25]`,
`decrypt (encrypt x k) k = x`, and shifting by 0 is the identity. -/
theorem c1_caesar_roundtrip (x : List ℕ) (k : ℤ) (h0 : 0 ≤ k) (h1 : k ≤ 25) :
    decrypt (encrypt x k) k = x ∧ encrypt x 0 = x :=
  ⟨decrypt_encrypt x k, encrypt_zero x⟩

/-- Witness for C1 at the text "Hello, World!" and key 3. -/
theorem c1_caesar_roundtrip_witness :
    (0 : ℤ) ≤ 3 ∧ (3 : ℤ) ≤ 25 ∧
      (decrypt (encrypt (codes "Hello, World!") 3) 3 = codes "Hello, World!" ∧
        encrypt (codes "Hello, World!") 0 = codes "Hello, World!") :=
  ⟨by decide, by decide, c1_caesar_roundtrip (codes "Hello, World!") 3 (by decide) (by decide)⟩

/-- C2: `brute_force_caesar` returns exactly 26 pairs, whose keys are
0..25 in ascending order, and the `i`-th pair is `(i, decrypt ct i)`. -/
theorem c2_bruteforce_enumerates (ct : List ℕ) :
    (bruteForceCaesar ct).length = 26 ∧
      (bruteForceCaesar ct).map Prod.fst = List.range 26 ∧
      (∀ i : ℕ, i < 26 → (bruteForceCaesar ct)[i]? = some (i, decrypt ct (i : ℤ))) := by
  refine ⟨by simp [bruteForceCaesar], by simp [bruteForceCaesar, Function.comp_def], ?_⟩
  intro i hi
  simp [bruteForceCaesar, List.getElem?_map, List.getElem?_range hi]

/-- Witness for C2 at the empty ciphertext and index 7. -/
theorem c2_bruteforce_enumerates_witness :
    (bruteForceCaesar []).length = 26 ∧
      (bruteForceCaesar []).map Prod.fst = List.range 26 ∧
      (bruteForceCaesar [])[7]? = some (7, decrypt [] (7 : ℤ)) :=
  ⟨(c2_bruteforce_enumerates []).1, (c2_bruteforce_enumerates []).2.1,
    (c2_bruteforce_enumerates []).2.2 7 (by decide)⟩

/-! ## Python character classes (ASCII + Latin-1 model)

`str.isalpha`, `str.lower`, `str.isspace` and the regex classes `\w` and
`[a-z\u0080-￿]` are modelled exactly on code points up to U+00FF
(ASCII and the Latin-1 supplement). -/

/-- Python `str.isspace` (also the separator set of `str.split()` and
`str.strip()`), restricted to ASCII + Latin-1. -/
def pyIsSpace (c : ℕ) : Bool :=
  c = 9 ∨ c = 10 ∨ c = 11 ∨ c = 12 ∨ c = 13 ∨
    (28 ≤ c ∧ c ≤ 31) ∨ c = 32 ∨ c = 133 ∨ c = 160

/-- Python `str.isalpha`, restricted to ASCII + Latin-1: `A`-`Z`, `a`-`z`,
`ª`, `µ`, `º`, and `À`-`ÿ` except `×` and `÷`. -/
def pyIsAlpha (c : ℕ) : Bool :=
  (65 ≤ c ∧ c ≤ 90) ∨ (97 ≤ c ∧ c ≤ 122) ∨
    c = 0xAA ∨ c = 0xB5 ∨ c = 0xBA ∨
    (0xC0 ≤ c ∧ c ≤ 0xFF ∧ c ≠ 0xD7 ∧ c ≠ 0xF7)

/-- Python `str.lower`, restricted to ASCII + Latin-1: `A`-`Z` and the
Latin-1 uppercase letters `À`-`Þ` (except `×`) move down by 32. -/
def pyToLower (c : ℕ) : ℕ :=
  if 65 ≤ c ∧ c ≤ 90 then c + 32
  else if 0xC0 ≤ c ∧ c ≤ 0xDE ∧ c ≠ 0xD7 then c + 32
  else c

/-- The regex word class `\w`, restricted to ASCII + Latin-1: digits,
letters, underscore. -/
def isWordChar (c : ℕ) : Bool :=
  (48 ≤ c ∧ c ≤ 57) ∨ (65 ≤ c ∧ c ≤ 90) ∨ c = 95 ∨ (97 ≤ c ∧ c ≤ 122) ∨
    c = 0xAA ∨ c = 0xB5 ∨ c = 0xBA ∨
    (0xC0 ≤ c ∧ c ≤ 0xFF ∧ c ≠ 0xD7 ∧ c ≠ 0xF7)

/-- The character class `[a-z\u0080-￿]` of the word-extraction regex
in `crypto/scoring.py`. -/
def inTokenSet (c : ℕ) : Bool :=
  (97 ≤ c ∧ c ≤ 122) ∨ (0x80 ≤ c ∧ c ≤ 0xFFFF)

/-- Python `str.strip()`: drop leading and trailing whitespace. -/
def pyStrip (l : List ℕ) : List ℕ :=
  ((l.dropWhile pyIsSpace).reverse.dropWhile pyIsSpace).reverse

/-- Fuel-driven worker for `pySplit`. -/
def pySplitGo : ℕ → List ℕ → List (List ℕ)
  | 0, _ => []
  | fuel + 1, l =>
    match l.dropWhile pyIsSpace with
    | [] => []
    | c :: rest =>
      ((c :: rest).takeWhile (fun d => ¬ pyIsSpace d)) ::
        pySplitGo fuel ((c :: rest).dropWhile (fun d => ¬ pyIsSpace d))

/-- Python `str.split()` (no separator): maximal runs of non-whitespace. -/
def pySplit (l : List ℕ) : List (List ℕ) :=
  pySplitGo (l.length + 1) l

/-- Fuel-driven worker for `extractWords`.  `prev` is the code point just
before the unscanned remainder (`none` at the start of the text). -/
def extractWordsGo : ℕ → Option ℕ → List ℕ → List (List ℕ)
  | 0, _, _ => []
  | _ + 1, _, [] => []
  | fuel + 1, prev, c :: rest =>
    if inTokenSet c then
      let run := (c :: rest).takeWhile inTokenSet
      let rest' := (c :: rest).dropWhile inTokenSet
      let tail := extractWordsGo fuel (some (run.getLastD 0)) rest'
      let prevOk := match prev with | none => true | some p => ! isWordChar p
      let nextOk := match rest' with | [] => true | d :: _ => ! isWordChar d
      if prevOk && nextOk then run :: tail else tail
    else
      extractWordsGo fuel (some c) rest

/-- `re.findall` of the word regex (backslash-b, the token class, backslash-b) from
`crypto/scoring.py`, on the ASCII + Latin-1 universe: maximal runs of
`inTokenSet` characters whose neighbouring characters (when present) are
not word characters. -/
def extractWords (text : List ℕ) : List (List ℕ) :=
  extractWordsGo (text.length + 1) none text

/-! ## Abstract transcendental functions -/

/-- The transcendental functions used by `crypto/scoring.py`, kept
abstract: `expNeg10th s` models `math.exp(-s / 10.0)` and `log2` models
`math.log2`.  Every claim proved below holds for all values of these
functions, so no axiomatisation of the reals is needed. -/
structure TransFns where
  expNeg10th : ℚ → ℚ
  log2 : ℚ → ℚ

/-! ## crypto/scoring.py : letter frequencies and chi-squared score -/

/-- `ENGLISH_LETTER_FREQ` from `crypto/scoring.py`, keyed by code point. -/
def ENGLISH_LETTER_FREQ : List (ℕ × ℚ) :=
  [(97, 0.08167), (98, 0.01492), (99, 0.02782), (100, 0.04253), (101, 0.12702),
   (102, 0.02228), (103, 0.02015), (104, 0.06094), (105, 0.06966), (106, 0.00153),
   (107, 0.00772), (108, 0.04025), (109, 0.02406), (110, 0.06749), (111, 0.07507),
   (112, 0.01929), (113, 0.00095), (114, 0.05987), (115, 0.06327), (116, 0.09056),
   (117, 0.02758), (118, 0.00978), (119, 0.02360), (120, 0.00150), (121, 0.01974),
   (122, 0.00074)]

/-- `FRENCH_LETTER_FREQ` from `crypto/scoring.py`, keyed by code point. -/
def FRENCH_LETTER_FREQ : List (ℕ × ℚ) :=
  [(97, 0.07636), (98, 0.00901), (99, 0.03260), (100, 0.03669), (101, 0.14715),
   (102, 0.01066), (103, 0.00866), (104, 0.00737), (105, 0.07529), (106, 0.00613),
   (107, 0.00049), (108, 0.05456), (109, 0.02968), (110, 0.07110), (111, 0.05796),
   (112, 0.02521), (113, 0.01362), (114, 0.06693), (115, 0.07948), (116, 0.07244),
   (117, 0.06311), (118, 0.01629), (119, 0.00074), (120, 0.00427), (121, 0.00128),
   (122, 0.00326)]

/-- `detect_language_alphabet` from `crypto/scoring.py`: returns `"latin"`
on every input (both branches yield the same constant). -/
def detect_language_alphabet (text : List ℕ) : String :=
  let letters := text.filter (fun c => pyIsAlpha c)
  if letters = [] then "latin" else "latin"

/-- `get_letter_frequencies_for_alphabet` from `crypto/scoring.py`:
always the English profile. -/
def get_letter_frequencies_for_alphabet (_alphabet : String) : List (ℕ × ℚ) :=
  ENGLISH_LETTER_FREQ

/-- `expected.get(ch, 0.0)`: association-list lookup with default 0. -/
def freqLookup (expected : List (ℕ × ℚ)) (ch : ℕ) : ℚ :=
  (expected.lookup ch).getD 0

/-- The body of the chi-squared loop in `chi_squared_letter_score`
(`crypto/scoring.py` lines 151-161): the contribution of one letter to
the statistic.  `n` is the number of alphabetic characters. -/
def chi2Contribution (letters : List ℕ) (expected : List (ℕ × ℚ)) (ch : ℕ) : ℚ :=
  let observed : ℚ := (letters.count ch : ℚ)
  let expFreq := freqLookup expected ch
  if 0 < expFreq then
    let expectedCount := expFreq * (letters.length : ℚ)
    if 0.01 < expectedCount then (observed - expectedCount) ^ 2 / expectedCount
    else if 0 < observed then observed * 10
    else 0
  else 0

/-- `all_letters = set(counts.keys()) | set(expected.keys())`. -/
def allLetters (letters : List ℕ) (expected : List (ℕ × ℚ)) : List ℕ :=
  (letters ++ expected.map Prod.fst).dedup

/-- The chi-squared statistic accumulated by `chi_squared_letter_score`. -/
def chi2Statistic (letters : List ℕ) (expected : List (ℕ × ℚ)) : ℚ :=
  ((allLetters letters expected).map (chi2Contribution letters expected)).sum

/-- `chi_squared_letter_score` from `crypto/scoring.py`.  `expected? =
none` models calling the function without the optional `expected`
argument, in which case the code auto-detects the alphabet. -/
def chi_squared_letter_score (tf : TransFns) (text : List ℕ)
    (expected? : Option (List (ℕ × ℚ))) : ℚ :=
  let expected :=
    match expected? with
    | some e => e
    | none => get_letter_frequencies_for_alphabet (detect_language_alphabet text)
  let letters := (text.filter (fun c => pyIsAlpha c)).map pyToLower
  if letters.length = 0 then 0.01
  else
    let chi2 := chi2Statistic letters expected
    let degreesOfFreedom : ℕ := max ((allLetters letters expected).length - 1) 1
    let normalizedChi2 :=
      if 0 < degreesOfFreedom then chi2 / (degreesOfFreedom : ℚ) else chi2
    let score :=
      if normalizedChi2 < 1 then 1.0
      else if normalizedChi2 < 50 then tf.expNeg10th normalizedChi2
      else 1.0 / (1.0 + normalizedChi2 / 100.0)
    max 0.01 (min 1.0 score)

/-! ### C4: structure of `chi_squared_letter_score` -/

/-- The three-tier piecewise map of the spec from the normalized statistic to a
score: `< 1` gives 1.0, `[1, 50)` gives `exp(-stat/10)`, `≥ 50` gives
`1/(1 + stat/100)`. -/
def threeTierMap (tf : TransFns) (s : ℚ) : ℚ :=
  if s < 1 then 1.0
  else if s < 50 then tf.expNeg10th s
  else 1.0 / (1.0 + s / 100.0)

/-- The clamp of a score, per the spec, to `[0.01, 1.0]`. -/
def clampScore (q : ℚ) : ℚ := max 0.01 (min 1.0 q)

/-- The normalized chi-squared statistic of a text against an expected
profile: the statistic divided by the degrees of freedom (unique letters
involved minus one, floored at one). -/
def chi2NormalizedStat (text : List ℕ) (expected : List (ℕ × ℚ)) : ℚ :=
  let letters := (text.filter (fun c => pyIsAlpha c)).map pyToLower
  chi2Statistic letters expected /
    ((max ((allLetters letters expected).length - 1) 1 : ℕ) : ℚ)

theorem clampScore_mem (q : ℚ) : 0.01 ≤ clampScore q ∧ clampScore q ≤ 1 := by
  unfold clampScore
  constructor
  · exact le_max_left _ _
  · exact max_le (by norm_num) ((min_le_left _ _).trans (by norm_num))

theorem chi_squared_eq_tier (tf : TransFns) (text : List ℕ)
    (expected? : Option (List (ℕ × ℚ))) :
    chi_squared_letter_score tf text expected? =
      (if (text.filter (fun c => pyIsAlpha c)) = [] then 0.01
       else
        clampScore (threeTierMap tf (chi2NormalizedStat text
          (match expected? with
           | some e => e
           | none => get_letter_frequencies_for_alphabet
              (detect_language_alphabet text))))) := by
  unfold chi_squared_letter_score chi2NormalizedStat threeTierMap clampScore
  rcases expected? with - | e <;>
    · simp only [List.length_eq_zero, List.map_eq_nil_iff]
      split_ifs <;> simp_all

/-- C4: `chi_squared_letter_score` returns exactly 0.01 on an
empty/non-alphabetic input; its result always lies in `[0.01, 1.0]`; and
on alphabetic input it is exactly the three-tier map of the normalized
statistic, clamped to `[0.01, 1.0]`. -/
theorem c4_chi_squared_shape (tf : TransFns) (text : List ℕ)
    (expected? : Option (List (ℕ × ℚ))) :
    ((text.filter (fun c => pyIsAlpha c)) = [] →
      chi_squared_letter_score tf text expected? = 0.01) ∧
    0.01 ≤ chi_squared_letter_score tf text expected? ∧
    chi_squared_letter_score tf text expected? ≤ 1 ∧
    ((text.filter (fun c => pyIsAlpha c)) ≠ [] →
      chi_squared_letter_score tf text expected? =
        clampScore (threeTierMap tf (chi2NormalizedStat text
          (match expected? with
           | some e => e
           | none => ENGLISH_LETTER_FREQ)))) := by
  have h := chi_squared_eq_tier tf text expected?
  rw [h]
  split_ifs with hempty
  · exact ⟨fun _ => rfl, by norm_num, by norm_num, fun hne => absurd hempty hne⟩
  · refine ⟨fun habs => absurd habs hempty, (clampScore_mem _).1, (clampScore_mem _).2, ?_⟩
    intro _
    rcases expected? with - | e <;> rfl

/-- Witness for C4: the empty text (empty-case conjunct) evaluated
concretely, and the text "ab" (alphabetic-case conjunct), with a sample
interpretation of `exp`. -/
theorem c4_chi_squared_shape_witness :
    (chi_squared_letter_score ⟨fun _ => 0, fun _ => 0⟩ (codes "?!") none = 0.01) ∧
      (chi_squared_letter_score ⟨fun _ => 0, fun _ => 0⟩ (codes "ab") none =
        clampScore (threeTierMap ⟨fun _ => 0, fun _ => 0⟩
          (chi2NormalizedStat (codes "ab") ENGLISH_LETTER_FREQ))) :=
  ⟨(c4_chi_squared_shape ⟨fun _ => 0, fun _ => 0⟩ (codes "?!") none).1 (by decide),
   (c4_chi_squared_shape ⟨fun _ => 0, fun _ => 0⟩ (codes "ab") none).2.2.2 (by decide)⟩

/-! ### C5: the per-occurrence penalty in the chi-squared loop

The claim states that an observed letter with expected frequency zero
(absent from the profile) contributes `10 × occurrences`.  In the code
the whole contribution block is guarded by `if exp_freq > 0`, so such a
letter contributes nothing; the penalty branch fires only for letters
with positive expected frequency whose expected count is at most 0.01. -/

/-- Counterexample to C5 as stated: in the text `"ééé"` the letter `é`
(code point 233) is observed three times and has expected frequency 0 in
the English profile, yet its contribution to the chi-squared statistic
is 0, not `10 × 3`. -/
theorem c5_counterexample :
    freqLookup ENGLISH_LETTER_FREQ 233 = 0 ∧
      (((codes "ééé").filter (fun c => pyIsAlpha c)).map pyToLower).count 233 = 3 ∧
      chi2Contribution (((codes "ééé").filter (fun c => pyIsAlpha c)).map pyToLower)
          ENGLISH_LETTER_FREQ 233 = 0 ∧
      (0 : ℚ) ≠ 10 * 3 := by
  refine ⟨by decide, by decide, by decide, by norm_num⟩

/-- C5 (amended): a letter whose expected frequency is not positive is
always skipped (contributes 0), observed or not; the fixed penalty of 10
per occurrence applies to an observed letter whose expected frequency is
positive but whose expected count (frequency × number of letters) is at
most 0.01. -/
theorem c5_chi2_contribution (letters : List ℕ) (expected : List (ℕ × ℚ)) (ch : ℕ) :
    (freqLookup expected ch ≤ 0 → chi2Contribution letters expected ch = 0) ∧
    (0 < freqLookup expected ch →
      freqLookup expected ch * (letters.length : ℚ) ≤ 0.01 →
      0 < letters.count ch →
      chi2Contribution letters expected ch = 10 * (letters.count ch : ℚ)) := by
  constructor
  · intro hle
    unfold chi2Contribution
    rw [if_neg (by simpa using hle)]
  · intro hpos hsmall hobs
    unfold chi2Contribution
    rw [if_pos hpos, if_neg (by simpa using hsmall), if_pos (by exact_mod_cast hobs)]
    ring

/-- Witness for C5 (amended) at the text "zzz": `z` has positive expected
frequency 0.00074, expected count `0.00222 ≤ 0.01`, and is observed three
times, so it is charged the penalty `10 × 3 = 30`. -/
theorem c5_chi2_contribution_witness :
    freqLookup ENGLISH_LETTER_FREQ 122 ≤ 0 ∨
      (0 < freqLookup ENGLISH_LETTER_FREQ 122 ∧
        freqLookup ENGLISH_LETTER_FREQ 122 * ((codes "zzz").length : ℚ) ≤ 0.01 ∧
        0 < (codes "zzz").count 122 ∧
        chi2Contribution (codes "zzz") ENGLISH_LETTER_FREQ 122 =
          10 * ((codes "zzz").count 122 : ℚ)) :=
  Or.inr ⟨by rw [show freqLookup ENGLISH_LETTER_FREQ 122 = 0.00074 from rfl]; norm_num,
    by rw [show freqLookup ENGLISH_LETTER_FREQ 122 = 0.00074 from rfl]; norm_num [codes],
    by decide,
    (c5_chi2_contribution (codes "zzz") ENGLISH_LETTER_FREQ 122).2
      (by rw [show freqLookup ENGLISH_LETTER_FREQ 122 = 0.00074 from rfl]; norm_num)
      (by rw [show freqLookup ENGLISH_LETTER_FREQ 122 = 0.00074 from rfl]; norm_num [codes])
      (by decide)⟩

/-! ### C10: frequency-profile auto-detection is constant -/

/-- C10: the alphabet auto-detection always answers `"latin"`, the
profile lookup always answers the English profile, and calling
`chi_squared_letter_score` without an expected table equals calling it
with the English table. -/
theorem c10_default_profile_is_english (tf : TransFns) (text : List ℕ) :
    detect_language_alphabet text = "latin" ∧
    (∀ alphabet : String,
      get_letter_frequencies_for_alphabet alphabet = ENGLISH_LETTER_FREQ) ∧
    chi_squared_letter_score tf text none =
      chi_squared_letter_score tf text (some ENGLISH_LETTER_FREQ) := by
  refine ⟨?_, fun _ => rfl, rfl⟩
  simp [detect_language_alphabet]

/-! ## crypto/scoring.py : pattern-match density (inside `heuristic_score`) -/

/-- Does `hay` start with `pat`? -/
def startsWithSeq : List ℕ → List ℕ → Bool
  | [], _ => true
  | _ :: _, [] => false
  | a :: as, b :: bs => a = b && startsWithSeq as bs

/-- Python `pat in hay` (substring containment). -/
def containsSeq (pat : List ℕ) : List ℕ → Bool
  | [] => startsWithSeq pat []
  | c :: rest => startsWithSeq pat (c :: rest) || containsSeq pat rest

/-- The `common_patterns` list from `heuristic_score`
(`crypto/scoring.py` line 262). -/
def COMMON_PATTERNS : List (List ℕ) :=
  [codes "th", codes "he", codes "in", codes "er", codes "an", codes "re",
   codes "ed", codes "nd", codes "ou", codes "to", codes "en", codes "at",
   codes "it", codes "is", codes "or", codes "ti", codes "as", codes "of",
   codes "st", codes "le", codes "de", codes "et", codes "la", codes "un",
   codes "es", codes "nt", codes "on", codes "te"]

/-- The pattern-density feature of `heuristic_score`
(`crypto/scoring.py` lines 258-269): the number of listed patterns that
occur in the lowercased text (`sum(1 for pattern in common_patterns if
pattern in text_lower)`), divided by `max(length/20, 1)`, clamped above
at 1.  `length` is, per the caller, `max(len(text), 1)`. -/
def patternScore (textLower : List ℕ) (length : ℕ) : ℚ :=
  let patternCount := (COMMON_PATTERNS.filter (fun p => containsSeq p textLower)).length
  if 0 < length then min 1.0 ((patternCount : ℚ) / max ((length : ℚ) / 20) 1)
  else 0

/-- Number of (possibly overlapping) occurrences of `pat` in `hay`. -/
def countOccurrences (pat : List ℕ) : List ℕ → ℕ
  | [] => if startsWithSeq pat [] then 1 else 0
  | c :: rest => (if startsWithSeq pat (c :: rest) then 1 else 0) + countOccurrences pat rest

/-- The pattern-density feature as the spec describes it: count the
occurrences of each listed pattern (not merely which patterns occur),
normalize by `max(length/20, 1)` and clamp to `[0, 1]`. -/
def patternScoreSpec (textLower : List ℕ) (length : ℕ) : ℚ :=
  let occTotal := (COMMON_PATTERNS.map (fun p => countOccurrences p textLower)).sum
  if 0 < length then min 1.0 ((occTotal : ℚ) / max ((length : ℚ) / 20) 1)
  else 0

/-- Counterexample to C6 as stated: on the 40-character text
`"thth…th"` the feature as coded and the occurrence-counting
feature of the spec disagree: the code counts the pattern `th` once (it is present),
giving `min(1, 1/2) = 1/2`, while counting occurrences gives 20
occurrences of `th` and the clamped score 1. -/
theorem c6_counterexample :
    patternScore (codes "thththththththththththththththththththth") 40 ≠
      patternScoreSpec (codes "thththththththththththththththththththth") 40 := by
  have h1 : (COMMON_PATTERNS.filter
      (fun p => containsSeq p (codes "thththththththththththththththththththth"))).length = 1 := by
    decide
  have h2 : ((COMMON_PATTERNS.map
      (fun p => countOccurrences p (codes "thththththththththththththththththththth"))).sum) = 20 := by
    decide
  simp only [patternScore, patternScoreSpec, h1, h2]
  norm_num [min_def, max_def]

/-- C6 (amended): the pattern-density feature counts which entries of the
fixed pattern list occur at least once in the lowercased text (each
pattern contributing at most 1), normalizes that count by
`max(length/20, 1)`, clamps the result to `[0, 1]`, and returns 0 for
length 0. -/
theorem c6_pattern_density (textLower : List ℕ) (length : ℕ) :
    0 ≤ patternScore textLower length ∧
    patternScore textLower length ≤ 1 ∧
    (0 < length →
      patternScore textLower length =
        min 1.0 (((COMMON_PATTERNS.filter (fun p => containsSeq p textLower)).length : ℚ) /
          max ((length : ℚ) / 20) 1)) := by
  unfold patternScore
  split_ifs with hlen
  · refine ⟨le_min (by norm_num) ?_, (min_le_left _ _).trans (by norm_num), fun _ => rfl⟩
    apply div_nonneg (by positivity)
    exact le_trans (by norm_num) (le_max_right _ 1)
  · exact ⟨le_refl 0, by norm_num, fun h => absurd h hlen⟩

/-- Witness for C6 (amended) on the text "the cat" (length 7). -/
theorem c6_pattern_density_witness :
    0 < 7 ∧
      patternScore (codes "the cat") 7 =
        min 1.0 (((COMMON_PATTERNS.filter (fun p => containsSeq p (codes "the cat"))).length : ℚ) /
          max ((7 : ℚ) / 20) 1) :=
  ⟨by decide, (c6_pattern_density (codes "the cat") 7).2.2 (by decide)⟩

/-! ## crypto/scoring.py : remaining feature extractors -/

/-- The per-language resource bundle built by `app.get_resources`:
vocabulary, stopwords, bigram and trigram log-likelihood tables. -/
structure Resources where
  vocab : List (List ℕ)
  stopwords : List (List ℕ)
  bigrams : List (List ℕ × ℚ)
  trigrams : List (List ℕ × ℚ)

/-- `stopwords_count` from `crypto/scoring.py`: number of extracted words
of the lowercased text that are stopwords (0 if the stopword set is
empty). -/
def stopwords_count (text : List ℕ) (stopwords : List (List ℕ)) : ℕ :=
  if stopwords = [] then 0
  else ((extractWords (text.map pyToLower)).filter (fun w => w ∈ stopwords)).length

/-- `valid_word_ratio` from `crypto/scoring.py`: ratio of extracted words
present in the vocabulary, with a +0.05 bonus (capped at 1.0) when the
ratio is exactly 1. -/
def valid_word_ratio (text : List ℕ) (vocabulary : List (List ℕ)) : ℚ :=
  if vocabulary = [] then 0
  else
    let words := extractWords (text.map pyToLower)
    if words = [] then 0
    else
      let valid := (words.filter (fun w => w ∈ vocabulary)).length
      let ratio := (valid : ℚ) / (words.length : ℚ)
      if ratio = 1 ∧ 0 < words.length then min 1.0 (ratio + 0.05) else ratio

/-- The overlapping `n`-character windows of a text (`text[i:i+n]` for
`i in range(len(text) - n + 1)`). -/
def ngramWindows (n : ℕ) (text : List ℕ) : List (List ℕ) :=
  if text.length < n then []
  else (List.range (text.length - n + 1)).map (fun i => (text.drop i).take n)

/-- `ngram_likelihood` from `crypto/scoring.py`: sum of table
log-probabilities of each window of the lowercased text, with -15 for
any window absent from the table. -/
def ngram_likelihood (text : List ℕ) (ngrams : List (List ℕ × ℚ)) (n : ℕ) : ℚ :=
  ((ngramWindows n (text.map pyToLower)).map
    (fun g => (ngrams.lookup g).getD (-15))).sum

/-- `character_entropy` from `crypto/scoring.py`: Shannon entropy of the
character distribution, with `log2` abstracted in `tf`. -/
def character_entropy (tf : TransFns) (text : List ℕ) : ℚ :=
  -((text.dedup.map (fun c =>
      let p : ℚ := (text.count c : ℚ) / (text.length : ℚ)
      p * tf.log2 p)).sum)

/-- `heuristic_score` from `crypto/scoring.py`: the length- and
shape-aware weighted blend of the feature signals, clamped to
`[0.01, 1.0]`. -/
def heuristic_score (tf : TransFns) (text0 : List ℕ) (resources : Resources) : ℚ :=
  let text := text0.map pyToLower
  let length := max text.length 1
  let words := pySplit text
  let wordCount := words.length
  let vr := if resources.vocab ≠ [] then valid_word_ratio text resources.vocab else 0
  let sw := stopwords_count text resources.stopwords
  let swNorm := if 0 < wordCount then min ((sw : ℚ) / max (wordCount : ℚ) 1) 1.0 else 0
  let ngNorm :=
    if resources.trigrams ≠ [] ∧ 3 ≤ text.length then
      let ng := ngram_likelihood text resources.trigrams 3
      let numTrigrams := max (text.length - 2) 1
      let ngAvg := ng / (numTrigrams : ℚ)
      if -3 < ngAvg then 1.0
      else if -10 < ngAvg then max 0 (1 + (ngAvg + 3) / 7)
      else 0
    else if resources.bigrams ≠ [] ∧ 2 ≤ text.length then
      let ng := ngram_likelihood text resources.bigrams 2
      let numBigrams := max (text.length - 1) 1
      let ngAvg := ng / (numBigrams : ℚ)
      if -2 < ngAvg then 1.0
      else if -8 < ngAvg then max 0 (1 + (ngAvg + 2) / 6)
      else 0
    else 0
  let freqScore := chi_squared_letter_score tf text none
  let lettersOnly := text.filter (fun c => pyIsAlpha c)
  let entScore :=
    if 0 < lettersOnly.length then
      max 0 (1 - |character_entropy tf lettersOnly - 4| / 2)
    else 0
  let patScore := patternScore (text.map pyToLower) length
  let isSingleWord := wordCount = 1
  let isShort := length < 30
  let score :=
    if isSingleWord then
      0.50 * freqScore + 0.30 * vr + 0.15 * patScore + 0.05 * entScore
    else if isShort then
      0.35 * freqScore + 0.30 * vr + 0.20 * ngNorm + 0.10 * swNorm + 0.05 * entScore
    else
      0.40 * vr + 0.30 * ngNorm + 0.15 * freqScore + 0.10 * swNorm + 0.05 * entScore
  min 1.0 (max 0.01 score)

/-! ### Range lemmas for the feature extractors -/

theorem chi_squared_range (tf : TransFns) (text : List ℕ)
    (expected? : Option (List (ℕ × ℚ))) :
    0.01 ≤ chi_squared_letter_score tf text expected? ∧
      chi_squared_letter_score tf text expected? ≤ 1 := by
  rw [chi_squared_eq_tier]
  split_ifs
  · exact ⟨le_refl _, by norm_num⟩
  · exact clampScore_mem _

theorem valid_word_ratio_range (text : List ℕ) (vocabulary : List (List ℕ)) :
    0 ≤ valid_word_ratio text vocabulary ∧ valid_word_ratio text vocabulary ≤ 1 := by
  simp only [valid_word_ratio]
  split_ifs with h1 h2 h3
  · exact ⟨le_refl 0, by norm_num⟩
  · exact ⟨le_refl 0, by norm_num⟩
  · constructor
    · exact le_min (by norm_num) (by positivity)
    · exact (min_le_left _ _).trans (by norm_num)
  · have hlen : 0 < ((extractWords (text.map pyToLower)).length : ℚ) := by
      have : extractWords (text.map pyToLower) ≠ [] := h2
      have := List.length_pos.mpr this
      exact_mod_cast this
    constructor
    · positivity
    · rw [div_le_one hlen]
      exact_mod_cast List.length_filter_le _ _

theorem heuristic_score_range (tf : TransFns) (text : List ℕ) (resources : Resources) :
    0.01 ≤ heuristic_score tf text resources ∧ heuristic_score tf text resources ≤ 1 := by
  unfold heuristic_score
  constructor
  · exact le_min (by norm_num) (le_max_left _ _)
  · exact (min_le_left _ _).trans (by norm_num)

/-! ## app.py : per-candidate scoring and numeric-safety policy -/

/-- A Python float as seen by the numeric-safety guard of `app.analyze`:
either a rational value or one of the non-finite values the guard tests
for (`math.isnan` / `math.isinf`). -/
inductive PyFloat where
  | nan : PyFloat
  | inf : PyFloat
  | ninf : PyFloat
  | val : ℚ → PyFloat

/-- Python `round(x, 4)`.  (Python rounds half-to-even while `round`
rounds half-up; they agree away from exact ten-thousandth ties, which is
everywhere this model evaluates it.) -/
def round4 (q : ℚ) : ℚ := ((round (q * 10000) : ℤ) : ℚ) / 10000

/-- The numeric-safety policy of `app.analyze` (lines 179-189): replace
NaN/infinite/negative scores by 0.01, floor at 0.01, round to 4 decimal
places, and replace a non-positive rounded result by 0.0001. -/
def sanitizeScore (s : PyFloat) : ℚ :=
  let score : ℚ :=
    match s with
    | .nan => 0.01
    | .inf => 0.01
    | .ninf => 0.01
    | .val q => if q < 0 then 0.01 else q
  let floored := max 0.01 score
  let finalScore := round4 floored
  if finalScore ≤ 0 then 0.0001 else finalScore

/-- The raw combined score of one candidate in `app.analyze`
(lines 136-177): heuristic, vocabulary and letter-frequency signals
blended according to the single-word / dictionary-match / vocabulary-band
branches. -/
def candidateRawScore (tf : TransFns) (resources : Resources)
    (augmentedVocab : List (List ℕ)) (expectedFreq : List (ℕ × ℚ))
    (isSingleWord : Bool) (plaintext : List ℕ) : ℚ :=
  let hScore := heuristic_score tf plaintext resources
  let wordScore := if augmentedVocab ≠ [] then valid_word_ratio plaintext augmentedVocab else 0
  let freqScore := chi_squared_letter_score tf plaintext (some expectedFreq)
  if isSingleWord then
    if (pyStrip plaintext).map pyToLower ∈ augmentedVocab then
      0.95 + freqScore * 0.05
    else
      let score := freqScore * 0.65 + hScore * 0.35
      if score < 0.2 then score * 0.3 else score
  else
    if 0.7 < wordScore then wordScore * 0.55 + hScore * 0.30 + freqScore * 0.15
    else if 0.4 < wordScore then wordScore * 0.45 + hScore * 0.35 + freqScore * 0.20
    else if 0 < wordScore then wordScore * 0.30 + hScore * 0.40 + freqScore * 0.30
    else freqScore * 0.55 + hScore * 0.45

/-- The final per-candidate score of `app.analyze`: the raw blend passed
through the numeric-safety policy. -/
def candidateFinalScore (tf : TransFns) (resources : Resources)
    (augmentedVocab : List (List ℕ)) (expectedFreq : List (ℕ × ℚ))
    (isSingleWord : Bool) (plaintext : List ℕ) : ℚ :=
  sanitizeScore (.val (candidateRawScore tf resources augmentedVocab expectedFreq
    isSingleWord plaintext))

/-! ### Arithmetic facts about `round4` and `sanitizeScore` -/

theorem round_le_round_rat {a b : ℚ} (h : a ≤ b) : round a ≤ round b := by
  rw [round_eq, round_eq]
  exact Int.floor_le_floor (by linarith)

theorem round4_mono {a b : ℚ} (h : a ≤ b) : round4 a ≤ round4 b := by
  unfold round4
  have hr : round (a * 10000) ≤ round (b * 10000) :=
    round_le_round_rat (by linarith)
  have : ((round (a * 10000) : ℤ) : ℚ) ≤ ((round (b * 10000) : ℤ) : ℚ) := by
    exact_mod_cast hr
  linarith

theorem round4_rat_001 : round4 0.01 = 0.01 := by
  have h : ((0.01 : ℚ) * 10000) = ((100 : ℤ) : ℚ) := by norm_num
  rw [round4, h, round_intCast]
  norm_num

theorem round4_rat_095 : round4 0.95 = 0.95 := by
  have h : ((0.95 : ℚ) * 10000) = ((9500 : ℤ) : ℚ) := by norm_num
  rw [round4, h, round_intCast]
  norm_num

theorem round4_rat_one : round4 1 = 1 := by
  have h : ((1 : ℚ) * 10000) = ((10000 : ℤ) : ℚ) := by norm_num
  rw [round4, h, round_intCast]
  norm_num

theorem sanitizeScore_nonfinite_or_neg :
    sanitizeScore .nan = 0.01 ∧ sanitizeScore .inf = 0.01 ∧ sanitizeScore .ninf = 0.01 ∧
      ∀ q : ℚ, q < 0 → sanitizeScore (.val q) = 0.01 := by
  have hmax : max (0.01 : ℚ) 0.01 = 0.01 := max_self _
  have hpos : ¬ ((0.01 : ℚ) ≤ 0) := by norm_num
  refine ⟨?_, ?_, ?_, ?_⟩ <;>
    first
    | · simp only [sanitizeScore, hmax, round4_rat_001]
        rw [if_neg hpos]
    | · intro q hq
        simp only [sanitizeScore, if_pos hq, hmax, round4_rat_001]
        rw [if_neg hpos]

/-- For a raw score in `[0, 1]` the sanitized output lies in `[0.01, 1]`. -/
theorem sanitizeScore_val_mem {q : ℚ} (h0 : 0 ≤ q) (h1 : q ≤ 1) :
    0.01 ≤ sanitizeScore (.val q) ∧ sanitizeScore (.val q) ≤ 1 := by
  simp only [sanitizeScore, if_neg (not_lt.mpr h0)]
  have hfl : (0.01 : ℚ) ≤ max 0.01 q := le_max_left _ _
  have hfu : max (0.01 : ℚ) q ≤ 1 := max_le (by norm_num) h1
  have hl : (0.01 : ℚ) ≤ round4 (max 0.01 q) := by
    calc (0.01 : ℚ) = round4 0.01 := round4_rat_001.symm
    _ ≤ _ := round4_mono hfl
  have hu : round4 (max 0.01 q) ≤ 1 := by
    calc round4 (max 0.01 q) ≤ round4 1 := round4_mono hfu
    _ = 1 := round4_rat_one
  rw [if_neg (by linarith)]
  exact ⟨hl, hu⟩

/-- The raw blended candidate score always lies in `[0, 1]`. -/
theorem candidateRawScore_range (tf : TransFns) (resources : Resources)
    (augmentedVocab : List (List ℕ)) (expectedFreq : List (ℕ × ℚ))
    (isSingleWord : Bool) (plaintext : List ℕ) :
    0 ≤ candidateRawScore tf resources augmentedVocab expectedFreq isSingleWord plaintext ∧
      candidateRawScore tf resources augmentedVocab expectedFreq isSingleWord plaintext ≤ 1 := by
  obtain ⟨hh0, hh1⟩ := heuristic_score_range tf plaintext resources
  obtain ⟨hf0, hf1⟩ := chi_squared_range tf plaintext (some expectedFreq)
  obtain ⟨hw0, hw1⟩ := valid_word_ratio_range plaintext augmentedVocab
  simp only [candidateRawScore]
  split_ifs <;> constructor <;> linarith

/-- C3: every score produced by the per-candidate scoring of the
analyze pipeline lies in `(0, 1]` (in particular it is never 0.0), and the
numeric-safety guard replaces a NaN, infinite or negative computed score
by the floor value 0.01 before output. -/
theorem c3_score_positivity_and_guard (tf : TransFns) (resources : Resources)
    (augmentedVocab : List (List ℕ)) (expectedFreq : List (ℕ × ℚ))
    (isSingleWord : Bool) (plaintext : List ℕ) :
    (0 < candidateFinalScore tf resources augmentedVocab expectedFreq isSingleWord plaintext ∧
      candidateFinalScore tf resources augmentedVocab expectedFreq isSingleWord plaintext ≤ 1) ∧
    sanitizeScore .nan = 0.01 ∧ sanitizeScore .inf = 0.01 ∧ sanitizeScore .ninf = 0.01 ∧
    (∀ q : ℚ, q < 0 → sanitizeScore (.val q) = 0.01) := by
  obtain ⟨h0, h1⟩ := candidateRawScore_range tf resources augmentedVocab expectedFreq
    isSingleWord plaintext
  obtain ⟨s0, s1⟩ := sanitizeScore_val_mem h0 h1
  exact ⟨⟨lt_of_lt_of_le (by norm_num) s0, s1⟩, sanitizeScore_nonfinite_or_neg⟩

/-- Witness for C3 at concrete pipeline inputs and at the negative raw
score -1. -/
theorem c3_score_positivity_and_guard_witness :
    (0 < candidateFinalScore ⟨fun _ => 0, fun _ => 0⟩ ⟨[], [], [], []⟩ []
        ENGLISH_LETTER_FREQ false (codes "ab") ∧
      candidateFinalScore ⟨fun _ => 0, fun _ => 0⟩ ⟨[], [], [], []⟩ []
        ENGLISH_LETTER_FREQ false (codes "ab") ≤ 1) ∧
    ((-1 : ℚ) < 0 ∧ sanitizeScore (.val (-1)) = 0.01) :=
  ⟨(c3_score_positivity_and_guard ⟨fun _ => 0, fun _ => 0⟩ ⟨[], [], [], []⟩ []
      ENGLISH_LETTER_FREQ false (codes "ab")).1,
   by norm_num,
   (c3_score_positivity_and_guard ⟨fun _ => 0, fun _ => 0⟩ ⟨[], [], [], []⟩ []
      ENGLISH_LETTER_FREQ false (codes "ab")).2.2.2.2 (-1) (by norm_num)⟩

/-- C8: for a single-token input whose stripped, lowercased candidate
plaintext is a dictionary entry, the scoring engine assigns
`0.95 + 0.05 × letter-frequency score`, and the resulting final score is
at least 0.95 and at most 1.0. -/
theorem c8_dict_match_base_score (tf : TransFns) (resources : Resources)
    (augmentedVocab : List (List ℕ)) (expectedFreq : List (ℕ × ℚ)) (plaintext : List ℕ)
    (hdict : (pyStrip plaintext).map pyToLower ∈ augmentedVocab) :
    candidateRawScore tf resources augmentedVocab expectedFreq true plaintext =
      0.95 + chi_squared_letter_score tf plaintext (some expectedFreq) * 0.05 ∧
    0.95 ≤ candidateFinalScore tf resources augmentedVocab expectedFreq true plaintext ∧
    candidateFinalScore tf resources augmentedVocab expectedFreq true plaintext ≤ 1 := by
  obtain ⟨hf0, hf1⟩ := chi_squared_range tf plaintext (some expectedFreq)
  have hraw : candidateRawScore tf resources augmentedVocab expectedFreq true plaintext =
      0.95 + chi_squared_letter_score tf plaintext (some expectedFreq) * 0.05 := by
    simp only [candidateRawScore, if_pos hdict, if_true]
  refine ⟨hraw, ?_, ?_⟩ <;>
    · unfold candidateFinalScore
      rw [hraw]
      simp only [sanitizeScore, if_neg (not_lt.mpr (by linarith :
        (0 : ℚ) ≤ 0.95 + chi_squared_letter_score tf plaintext (some expectedFreq) * 0.05))]
      rw [max_eq_right (by linarith), if_neg (by
        have := round4_mono (by linarith :
          (0.95 : ℚ) ≤ 0.95 + chi_squared_letter_score tf plaintext (some expectedFreq) * 0.05)
        rw [round4_rat_095] at this
        linarith)]
      first
      | · have := round4_mono (by linarith :
            (0.95 : ℚ) ≤ 0.95 + chi_squared_letter_score tf plaintext (some expectedFreq) * 0.05)
          rw [round4_rat_095] at this
          linarith
      | · have := round4_mono (by linarith :
            0.95 + chi_squared_letter_score tf plaintext (some expectedFreq) * 0.05 ≤ (1 : ℚ))
          rw [round4_rat_one] at this
          linarith

/-- Witness for C8: the single word "hello" against a vocabulary
containing it. -/
theorem c8_dict_match_base_score_witness :
    (pyStrip (codes "hello")).map pyToLower ∈ [codes "hello"] ∧
      candidateRawScore ⟨fun _ => 0, fun _ => 0⟩ ⟨[], [], [], []⟩ [codes "hello"]
          ENGLISH_LETTER_FREQ true (codes "hello") =
        0.95 + chi_squared_letter_score ⟨fun _ => 0, fun _ => 0⟩ (codes "hello")
          (some ENGLISH_LETTER_FREQ) * 0.05 ∧
      0.95 ≤ candidateFinalScore ⟨fun _ => 0, fun _ => 0⟩ ⟨[], [], [], []⟩ [codes "hello"]
          ENGLISH_LETTER_FREQ true (codes "hello") :=
  ⟨by decide,
   (c8_dict_match_base_score ⟨fun _ => 0, fun _ => 0⟩ ⟨[], [], [], []⟩ [codes "hello"]
      ENGLISH_LETTER_FREQ (codes "hello") (by decide)).1,
   (c8_dict_match_base_score ⟨fun _ => 0, fun _ => 0⟩ ⟨[], [], [], []⟩ [codes "hello"]
      ENGLISH_LETTER_FREQ (codes "hello") (by decide)).2.1⟩

/-! ## app.py : ranking and selection

`candidates.sort(key=..., reverse=True)` is a stable
sort by score descending.  The output of a stable sort is uniquely determined
by the ordering and the input order, so the straightforward stable
insertion sort below is an exact model of it. -/

/-- A scored candidate as built by `app.analyze`:
`{key: k, plaintext: ..., score: ...}`. -/
structure Candidate where
  key : ℕ
  plaintext : List ℕ
  score : ℚ
  deriving DecidableEq

/-- Insert a candidate before the first already-placed candidate of
strictly smaller score (so earlier candidates precede later ones of
equal score). -/
def insertDesc (c : Candidate) : List Candidate → List Candidate
  | [] => [c]
  | x :: xs => if x.score ≤ c.score then c :: x :: xs else x :: insertDesc c xs

/-- The stable descending sort by score used by `app.analyze`. -/
def sortByScoreDesc (l : List Candidate) : List Candidate :=
  l.foldr insertDesc []

/-- `candidates[:5]` after sorting: the ranked top-5 selection. -/
def topFive (l : List Candidate) : List Candidate :=
  (sortByScoreDesc l).take 5

theorem insertDesc_length (c : Candidate) (l : List Candidate) :
    (insertDesc c l).length = l.length + 1 := by
  induction l with
  | nil => rfl
  | cons x xs ih =>
    unfold insertDesc
    split_ifs <;> simp [ih]

theorem sortByScoreDesc_length (l : List Candidate) :
    (sortByScoreDesc l).length = l.length := by
  induction l with
  | nil => rfl
  | cons x xs ih => simp [sortByScoreDesc, List.foldr_cons, insertDesc_length, ih] at *

theorem insertDesc_perm (c : Candidate) (l : List Candidate) :
    (insertDesc c l).Perm (c :: l) := by
  induction l with
  | nil => exact List.Perm.refl _
  | cons x xs ih =>
    unfold insertDesc
    split_ifs
    · exact List.Perm.refl _
    · exact (List.Perm.cons x ih).trans (List.Perm.swap c x xs)

theorem sortByScoreDesc_perm (l : List Candidate) :
    (sortByScoreDesc l).Perm l := by
  induction l with
  | nil => exact List.Perm.refl _
  | cons x xs ih =>
    exact (insertDesc_perm x (sortByScoreDesc xs)).trans (List.Perm.cons x ih)

theorem insertDesc_pairwise (c : Candidate) (l : List Candidate)
    (hl : l.Pairwise (fun a b => b.score ≤ a.score)) :
    (insertDesc c l).Pairwise (fun a b => b.score ≤ a.score) := by
  induction l with
  | nil => simp [insertDesc]
  | cons x xs ih =>
    rcases List.pairwise_cons.mp hl with ⟨hx, hxs⟩
    simp only [insertDesc]
    split_ifs with hle
    · refine List.pairwise_cons.mpr ⟨?_, hl⟩
      intro b hb
      rcases List.mem_cons.mp hb with rfl | hb'
      · exact hle
      · exact le_trans (hx b hb') hle
    · refine List.pairwise_cons.mpr ⟨?_, ih hxs⟩
      intro b hb
      rcases List.mem_cons.mp ((insertDesc_perm c xs).mem_iff.mp hb) with rfl | hb'
      · exact le_of_lt (lt_of_not_le hle)
      · exact hx b hb'

theorem sortByScoreDesc_pairwise (l : List Candidate) :
    (sortByScoreDesc l).Pairwise (fun a b => b.score ≤ a.score) := by
  induction l with
  | nil => exact List.Pairwise.nil
  | cons x xs ih => exact insertDesc_pairwise x (sortByScoreDesc xs) ih

theorem insertDesc_filter_score (s : ℚ) (c : Candidate) (l : List Candidate) :
    (insertDesc c l).filter (fun d => d.score = s) =
      if c.score = s then c :: l.filter (fun d => d.score = s)
      else l.filter (fun d => d.score = s) := by
  induction l with
  | nil =>
    by_cases hc : c.score = s <;> simp [insertDesc, hc]
  | cons x xs ih =>
    by_cases hc : c.score = s
    · rw [if_pos hc]
      simp only [insertDesc]
      split_ifs with hle
      · simp [List.filter_cons, hc]
      · by_cases hx : x.score = s
        · exact absurd (le_of_eq (hx.trans hc.symm)) hle
        · simp [List.filter_cons, hx, ih, hc]
    · rw [if_neg hc]
      simp only [insertDesc]
      split_ifs with hle
      · simp [List.filter_cons, hc]
      · by_cases hx : x.score = s <;> simp [List.filter_cons, hx, ih, hc]

theorem sortByScoreDesc_stable (l : List Candidate) (s : ℚ) :
    (sortByScoreDesc l).filter (fun d => d.score = s) =
      l.filter (fun d => d.score = s) := by
  induction l with
  | nil => rfl
  | cons x xs ih =>
    calc (sortByScoreDesc (x :: xs)).filter (fun d => d.score = s)
        = (insertDesc x (sortByScoreDesc xs)).filter (fun d => d.score = s) := rfl
    _ = _ := by
        rw [insertDesc_filter_score, ih]
        by_cases hx : x.score = s <;> simp [List.filter_cons, hx]

/-- C7: the ranking of `N` candidates keeps `min(N, 5)` entries, sorted
by score descending; the sort is stable (candidates of any given score
appear in exactly their original relative order, which in the pipeline is
ascending key order); and the first entry of the sorted sequence has the
maximal score. -/
theorem c7_ranking_stable_top5 (cs : List Candidate) :
    (topFive cs).length = min cs.length 5 ∧
    (topFive cs).Pairwise (fun a b => b.score ≤ a.score) ∧
    (∀ s : ℚ, (sortByScoreDesc cs).filter (fun d => d.score = s) =
      cs.filter (fun d => d.score = s)) ∧
    (∀ b rest, sortByScoreDesc cs = b :: rest → ∀ c ∈ cs, c.score ≤ b.score) := by
  refine ⟨?_, ?_, fun s => sortByScoreDesc_stable cs s, ?_⟩
  · rw [topFive, List.length_take, sortByScoreDesc_length, Nat.min_comm]
  · exact (sortByScoreDesc_pairwise cs).sublist (List.take_sublist _ _)
  · intro b rest hsort c hc
    rcases eq_or_ne c b with heq | hne
    · subst heq; exact le_refl _
    · have hmem : c ∈ sortByScoreDesc cs := (sortByScoreDesc_perm cs).mem_iff.mpr hc
      rw [hsort] at hmem
      rcases List.mem_cons.mp hmem with rfl | hmem'
      · exact le_refl _
      · have hpw := sortByScoreDesc_pairwise cs
        rw [hsort] at hpw
        exact (List.pairwise_cons.mp hpw).1 c hmem'

/-- Witness for C7 on three candidates with a score tie: keys 1, 0, 2
come out in that order (0.7 first, then the tied 0.5 pair in original
order). -/
theorem c7_ranking_stable_top5_witness :
    (topFive [⟨0, [], 1⟩, ⟨1, [], 2⟩, ⟨2, [], 1⟩]).length =
        min ([⟨0, [], 1⟩, ⟨1, [], 2⟩, ⟨2, [], 1⟩] : List Candidate).length 5 ∧
      (sortByScoreDesc [⟨0, [], 1⟩, ⟨1, [], 2⟩, ⟨2, [], 1⟩]).filter
          (fun d => d.score = 1) =
        ([⟨0, [], 1⟩, ⟨1, [], 2⟩, ⟨2, [], 1⟩] : List Candidate).filter
          (fun d => d.score = 1) ∧
      (⟨0, [], 1⟩ : Candidate).score ≤ (⟨1, [], 2⟩ : Candidate).score :=
  ⟨(c7_ranking_stable_top5 [⟨0, [], 1⟩, ⟨1, [], 2⟩, ⟨2, [], 1⟩]).1,
   (c7_ranking_stable_top5 [⟨0, [], 1⟩, ⟨1, [], 2⟩, ⟨2, [], 1⟩]).2.2.1 1,
   (c7_ranking_stable_top5 [⟨0, [], 1⟩, ⟨1, [], 2⟩, ⟨2, [], 1⟩]).2.2.2
     ⟨1, [], 2⟩ [⟨0, [], 1⟩, ⟨2, [], 1⟩] (by decide) ⟨0, [], 1⟩ (by decide)⟩

/-! ## app.py : the /analyze endpoint -/

/-- `COMMON_WORDS["en"]` from `app.analyze`. -/
def COMMON_WORDS_EN : List (List ℕ) :=
  [codes "the", codes "and", codes "is", codes "to", codes "of", codes "you",
   codes "hello", codes "that", codes "in", codes "it", codes "dog", codes "cat",
   codes "this", codes "message", codes "secret", codes "word", codes "text",
   codes "code"]

/-- `COMMON_WORDS["fr"]` from `app.analyze`. -/
def COMMON_WORDS_FR : List (List ℕ) :=
  [codes "le", codes "la", codes "et", codes "de", codes "un", codes "bonjour",
   codes "je", codes "tu", codes "il", codes "elle", codes "nous", codes "vous",
   codes "message", codes "secret", codes "mot", codes "texte", codes "code"]

/-- The single-word test of `app.analyze`: exactly one
whitespace-delimited token and a full match of `^[\w\u0080-￿]+$`. -/
def isSingleWordInput (ct : List ℕ) : Bool :=
  ((pySplit ct).length == 1) &&
    (! ct.isEmpty) && ct.all (fun c => isWordChar c || ((0x80 ≤ c) && (c ≤ 0xFFFF)))

/-- The success payload of `app.analyze`. -/
structure AnalyzeOk where
  cipher : List ℕ
  key : ℕ
  plainText : List ℕ
  score : ℚ
  candidates : List Candidate

/-- The JSON responses `app.analyze` can produce: a client error (HTTP
400), a server error (HTTP 500), or the result payload. -/
inductive AnalyzeResponse where
  | clientError (code : ℕ)
  | serverError (code : ℕ)
  | ok (payload : AnalyzeOk)

/-- `app.analyze`: strip the cipher text of the request, reject blank input
with a 400 client error before any candidate generation, otherwise score
all 26 decryptions, sort them (stable, score descending) and answer with
the best candidate and the top five. -/
def analyze (tf : TransFns) (resources : Resources) (cipherTextRaw : List ℕ)
    (lang : String) : AnalyzeResponse :=
  let cipherText := pyStrip cipherTextRaw
  if cipherText = [] then .clientError 400
  else
    let isSingle := isSingleWordInput cipherText
    let commonAug := if lang = "fr" then COMMON_WORDS_FR else COMMON_WORDS_EN
    let augmentedVocab := resources.vocab.map (fun w => w.map pyToLower) ++ commonAug
    let expectedFreq := if lang = "fr" then FRENCH_LETTER_FREQ else ENGLISH_LETTER_FREQ
    let candidates := (bruteForceCaesar cipherText).map (fun kp =>
      { key := kp.1, plaintext := kp.2,
        score := candidateFinalScore tf resources augmentedVocab expectedFreq
          isSingle kp.2 : Candidate })
    match sortByScoreDesc candidates with
    | [] => .serverError 500
    | best :: rest =>
      .ok ⟨cipherText.take 500, best.key, best.plaintext.take 500, best.score,
        (best :: rest).take 5⟩

/-- C9: a request whose cipher text is empty or whitespace-only is
answered with the 400 client error; the error branch returns before any
candidate is generated or scored. -/
theorem c9_blank_cipher_client_error (tf : TransFns) (resources : Resources)
    (cipherTextRaw : List ℕ) (lang : String)
    (hblank : ∀ c ∈ cipherTextRaw, pyIsSpace c = true) :
    analyze tf resources cipherTextRaw lang = .clientError 400 := by
  have hstrip : pyStrip cipherTextRaw = [] := by
    unfold pyStrip
    have h1 : cipherTextRaw.dropWhile pyIsSpace = [] :=
      List.dropWhile_eq_nil_iff.mpr hblank
    simp [h1]
  unfold analyze
  rw [if_pos hstrip]

/-- Witness for C9 on the whitespace-only request "  ". -/
theorem c9_blank_cipher_client_error_witness :
    (∀ c ∈ codes "  ", pyIsSpace c = true) ∧
      analyze ⟨fun _ => 0, fun _ => 0⟩ ⟨[], [], [], []⟩ (codes "  ") "en" =
        .clientError 400 :=
  ⟨by decide,
   c9_blank_cipher_client_error ⟨fun _ => 0, fun _ => 0⟩ ⟨[], [], [], []⟩
     (codes "  ") "en" (by decide)⟩

end Spec2Proof
